import Mathlib

/-
  Verification of the pyexiv2 metadata wrapper (exiv2wrapper.cpp).

  The development shallowly embeds the `exiv2wrapper::Image` session class and
  its tag operations.  The C++ code keeps three in-memory metadata containers
  (`_exifData`, `_iptcData`, `_xmpData`), a boolean `_dataRead` gate, and a
  handle `_image` on the underlying Exiv2 image (pixel geometry, MIME type,
  the byte stream `BasicIo`, and the on-file metadata containers).

  Containers are modelled as lists of datums; the Exiv2 library calls the
  wrapper makes (findKey, add, erase, iterators) are modelled by index-based
  list operations that follow the library's documented semantics.  Machine
  strings are Lean `String`s; raw bytes are `Nat`s.
-/

namespace Pyexiv2

/-- Error conditions surfaced by the wrapper.  `metadataNotRead`,
`nonRepeatable` and `keyNotFound` are the custom codes 101, 102 and 103 of
exiv2wrapper.cpp; `exiv2 code` carries a nonzero error code of the underlying
library. -/
inductive Err where
  | metadataNotRead
  | nonRepeatable
  | keyNotFound
  | exiv2 (code : Nat)
deriving DecidableEq, Repr

/-- An IPTC key, i.e. the (record, dataset) pair that identifies a dataset.
The canonical string form Iptc.RecordName.DatasetName used by
`Iptcdatum::key()` is in bijection with this pair. -/
structure IptcKey where
  record : Nat
  dataset : Nat
deriving DecidableEq, Repr

/-- One IPTC datum: a key together with its string value. -/
structure Iptcdatum where
  key : IptcKey
  value : String
deriving DecidableEq, Repr

/-- One EXIF datum.  EXIF keys are canonical strings (Exif.Group.Name). -/
structure ExifDatum where
  key : String
  value : String
deriving DecidableEq, Repr

/-- The three structural shapes an XMP value may take. -/
inductive XmpValue where
  | text (s : String)
  | array (items : List String)
  | langAlt (alts : List (String × String))
deriving DecidableEq, Repr

/-- One XMP datum.  XMP keys are canonical strings (Xmp.prefix.name). -/
structure XmpDatum where
  key : String
  value : XmpValue
deriving DecidableEq, Repr

/-- State of the underlying `Exiv2::BasicIo` stream: closed, or open at a read
position. -/
inductive StreamStatus where
  | closed
  | openAt (pos : Nat)
deriving DecidableEq, Repr

/-- The underlying byte stream: its contents (the container bytes on disk or
in the memory buffer), and whether it is currently open. -/
structure Stream where
  data : List Nat
  status : StreamStatus
deriving DecidableEq, Repr

/-- Models `BasicIo::seek(p, beg)`: only moves the position of an open
stream. -/
def Stream.seekTo (st : Stream) (p : Nat) : Stream :=
  { st with status := match st.status with
                      | .openAt _ => .openAt p
                      | .closed => .closed }

/-- Models `BasicIo::open()`: the stream becomes open at position 0. -/
def Stream.openStream (st : Stream) : Stream :=
  { st with status := .openAt 0 }

/-- Models `BasicIo::close()`. -/
def Stream.closeStream (st : Stream) : Stream :=
  { st with status := .closed }

/-- Models `BasicIo::read(buf, 1)`: reads one byte at the current position and
advances; at end of stream (or on a closed stream) nothing is read. -/
def Stream.read1 (st : Stream) : Option Nat × Stream :=
  match st.status with
  | .closed => (none, st)
  | .openAt p =>
    match st.data.get? p with
    | some b => (some b, { st with status := .openAt (p + 1) })
    | none => (none, st)

/-- A preview image as handed out by `Exiv2::PreviewManager`:
mime type, file extension, pixel dimensions and the raw data buffer
(`pData()`/`size()`).  Bytes may be 0 (embedded NULs). -/
structure PreviewImage where
  mimeType : String
  extension : String
  width : Nat
  height : Nat
  pData : List Nat
deriving DecidableEq, Repr

/-- `PreviewImage::size()` is the length of the raw buffer. -/
def PreviewImage.size (p : PreviewImage) : Nat := p.pData.length

/-- The state of the underlying `Exiv2::Image` object: pixel geometry, MIME
type, its `BasicIo` stream, the metadata containers held by the image itself
(set by `setExifData` etc., populated by the library's `readMetadata`), and
the previews its container holds. -/
structure Exiv2Image where
  pixelWidth : Nat
  pixelHeight : Nat
  mimeType : String
  basicIo : Stream
  imageExif : List ExifDatum
  imageIptc : List Iptcdatum
  imageXmp : List XmpDatum
  previewImages : List PreviewImage
deriving DecidableEq, Repr

/-- The wrapper session `exiv2wrapper::Image`: the `_dataRead` gate, the three
namespace stores `_exifData`, `_iptcData`, `_xmpData`, and the underlying
`_image`. -/
structure Image where
  dataRead : Bool
  exifData : List ExifDatum
  iptcData : List Iptcdatum
  xmpData : List XmpDatum
  image : Exiv2Image
deriving DecidableEq, Repr

/-- First index whose element satisfies the predicate (the position returned
by `findKey` / `std::find_if` from the beginning). -/
def findIdxFrom {α : Type} (p : α → Bool) : List α → Option Nat
  | [] => none
  | a :: l => if p a then some 0 else (findIdxFrom p l).map (· + 1)

/-- `IptcData::findKey`: index of the first datum with the given key. -/
def findKeyIdx (store : List Iptcdatum) (k : IptcKey) : Option Nat :=
  findIdxFrom (fun d => decide (d.key = k)) store

/-- `std::find_if(it, end, FindIptcdatum(...))` where `it` is the iterator at
index `start`: first index `≥ start` whose datum has the given key. -/
def findFrom (store : List Iptcdatum) (start : Nat) (k : IptcKey) : Option Nat :=
  (findKeyIdx (store.drop start) k).map (· + start)

/-- True iff some datum in the store carries the key (the
`findId(...) != end()` test inside `IptcData::add`). -/
def containsKey (store : List Iptcdatum) (k : IptcKey) : Bool :=
  store.any (fun d => decide (d.key = k))

/-- Number of repetitions of a key in an IPTC store. -/
def countKey (store : List Iptcdatum) (k : IptcKey) : Nat :=
  store.countP (fun d => decide (d.key = k))

/-- `dataIterator->setValue(value)`: overwrite the value of the datum at the
given index, keeping its key. -/
def setValueAt : List Iptcdatum → Nat → String → List Iptcdatum
  | [], _, _ => []
  | d :: rest, 0, v => ⟨d.key, v⟩ :: rest
  | d :: rest, n + 1, v => d :: setValueAt rest n v

/-- The value-assignment loop of `Image::setIptcTagValues`.  The iterator is
an optional index (none = `end()`).  While values remain: if the iterator is
valid, overwrite that repetition and advance to the next repetition after it;
otherwise append a fresh datum via `IptcData::add`, which fails with code 6
(`nonRepeatable`) when the key is non-repeatable and already present — the
C++ then throws with the container in its current, possibly mutated, state,
so the loop returns the store alongside the error. -/
def setIptcValuesLoop (reg : IptcKey → Bool) (k : IptcKey) :
    List String → List Iptcdatum → Option Nat →
    Option Err × List Iptcdatum × Option Nat
  | [], store, it => (none, store, it)
  | v :: rest, store, it =>
    match it with
    | some i =>
      let store' := setValueAt store i v
      setIptcValuesLoop reg k rest store' (findFrom store' (i + 1) k)
    | none =>
      if !reg k && containsKey store k then
        (some .nonRepeatable, store, none)
      else
        setIptcValuesLoop reg k rest (store ++ [⟨k, v⟩]) none

/-- The trailing erase loop of `Image::setIptcTagValues`: while the iterator
is valid, erase that repetition and search again from the erase position
(`find_if(dataIterator, end, ...)` — no increment).  The fuel argument is a
recursion bound only: each iteration erases one element, so `store.length`
iterations can never be exceeded and the 0-fuel branch is unreachable when
called with fuel = length. -/
def eraseRemaining (k : IptcKey) : Nat → List Iptcdatum → Option Nat → List Iptcdatum
  | _, store, none => store
  | 0, store, some _ => store
  | fuel + 1, store, some i =>
    if i < store.length then
      let store' := store.eraseIdx i
      eraseRemaining k fuel store' (findFrom store' i k)
    else store

/-- The erase loop of `Image::deleteIptcTag`: erase the repetition at the
iterator, then search from `++dataIterator`, i.e. from index i+1 of the
post-erase container — the element that shifted into slot i is skipped.
Fuel as in `eraseRemaining`. -/
def deleteIptcLoop (k : IptcKey) : Nat → List Iptcdatum → Option Nat → List Iptcdatum
  | _, store, none => store
  | 0, store, some _ => store
  | fuel + 1, store, some i =>
    if i < store.length then
      let store' := store.eraseIdx i
      deleteIptcLoop k fuel store' (findFrom store' (i + 1) k)
    else store

/-- `ExifData::operator[] = value` / `XmpData` analogue: overwrite the first
datum with the key, or append a new one. -/
def exifSet : List ExifDatum → String → String → List ExifDatum
  | [], k, v => [⟨k, v⟩]
  | d :: rest, k, v =>
    if d.key = k then ⟨k, v⟩ :: rest else d :: exifSet rest k v

/-- Overwrite-or-create for the XMP store (`_xmpData[key]` then value
assignment). -/
def xmpSet : List XmpDatum → String → XmpValue → List XmpDatum
  | [], k, v => [⟨k, v⟩]
  | d :: rest, k, v =>
    if d.key = k then ⟨k, v⟩ :: rest else d :: xmpSet rest k v

/-- The IPTC tag wrapper object.  The constructor records the key, the
registry's repeatability flag for it, and the list of raw values (one per
repetition).  Registry display strings (name, title, descriptions) are not
modelled. -/
structure IptcTag where
  key : IptcKey
  repeatable : Bool
  values : List String
deriving DecidableEq, Repr

/-- `IptcTag::setRawValues`: fails with `nonRepeatable` when the tag is
non-repeatable and more than one value is given; otherwise clears the datum
list and pushes one datum per value.  Note the check precedes any mutation. -/
def IptcTag.setRawValues (t : IptcTag) (vals : List String) : Option Err × IptcTag :=
  if !t.repeatable && vals.length > 1 then
    (some .nonRepeatable, t)
  else
    (none, { t with values := vals })

/-- A Preview object as built by the `Preview::Preview` constructor. -/
structure Preview where
  mimeType : String
  extension : String
  size : Nat
  dimensions : Nat × Nat
  data : List Nat
deriving DecidableEq, Repr

/-- The character-by-character buffer copy of the `Preview` constructor:
`_data = std::string(_size, ' ')` then `_data[i] = pData[i]` for each
`i < _size` (space = byte 32; the default argument of `getD` is never used
for indices below the source length). -/
def copyByByte (src : List Nat) (size : Nat) : List Nat :=
  (List.range size).foldl (fun buf i => buf.set i (src.getD i 32)) (List.replicate size 32)

/-- `Preview::Preview(const Exiv2::PreviewImage&)`. -/
def Preview.ofImage (pi : PreviewImage) : Preview :=
  { mimeType := pi.mimeType
    extension := pi.extension
    size := pi.size
    dimensions := (pi.width, pi.height)
    data := copyByByte pi.pData pi.size }

/-- Result of the underlying `Exiv2::Image::readMetadata()` call: either the
parsed triple of containers, or an Exiv2 error with the given code. -/
inductive ReadOutcome where
  | success (exif : List ExifDatum) (iptc : List Iptcdatum) (xmp : List XmpDatum)
  | failure (code : Nat)

/-- Result of the underlying `Exiv2::Image::writeMetadata()` call: on success
the re-serialized container bytes committed to the stream, otherwise an Exiv2
error code. -/
inductive WriteOutcome where
  | success (bytes : List Nat)
  | failure (code : Nat)

/-- `Image::readMetadata` (part_005 lines 121-151).  On success the session
stores are replaced wholesale and `_dataRead` is set.  On failure the caught
error is re-thrown when its code is nonzero; none of the assignments in the
try block have executed, so the session is returned unchanged. -/
def Image.readMetadata (s : Image) (o : ReadOutcome) : Option Err × Image :=
  match o with
  | .success e i x =>
    (none, { s with dataRead := true, exifData := e, iptcData := i, xmpData := x,
                    image := { s.image with imageExif := e, imageIptc := i, imageXmp := x } })
  | .failure c =>
    (if c = 0 then none else some (.exiv2 c), s)

/-- `Image::writeMetadata`: gate on `_dataRead`, copy the three session
stores into the image (`setExifData`/`setIptcData`/`setXmpData`), then commit
via the library; a library failure with nonzero code is re-thrown, after the
image containers were already set. -/
def Image.writeMetadata (s : Image) (o : WriteOutcome) : Option Err × Image :=
  if !s.dataRead then (some .metadataNotRead, s)
  else
    let img := { s.image with imageExif := s.exifData, imageIptc := s.iptcData,
                              imageXmp := s.xmpData }
    match o with
    | .success bytes =>
      (none, { s with image := { img with basicIo := { img.basicIo with data := bytes } } })
    | .failure c =>
      (if c = 0 then none else some (.exiv2 c), { s with image := img })

/-- `Image::pixelWidth`: gated accessor. -/
def Image.pixelWidth (s : Image) : Except Err Nat :=
  if !s.dataRead then .error .metadataNotRead else .ok s.image.pixelWidth

/-- `Image::pixelHeight`: gated accessor. -/
def Image.pixelHeight (s : Image) : Except Err Nat :=
  if !s.dataRead then .error .metadataNotRead else .ok s.image.pixelHeight

/-- `Image::mimeType`: gated accessor. -/
def Image.mimeType (s : Image) : Except Err String :=
  if !s.dataRead then .error .metadataNotRead else .ok s.image.mimeType

/-- `Image::exifKeys`: gated; lists the key of every EXIF datum in store
order. -/
def Image.exifKeys (s : Image) : Except Err (List String) :=
  if !s.dataRead then .error .metadataNotRead
  else .ok (s.exifData.map (fun d => d.key))

/-- `Image::getExifTag`: gated; `keyNotFound` when no datum has the key,
otherwise the datum (the registry display strings the `ExifTag` constructor
copies are not modelled). -/
def Image.getExifTag (s : Image) (key : String) : Except Err ExifDatum :=
  if !s.dataRead then .error .metadataNotRead
  else
    match findIdxFrom (fun d => decide (d.key = key)) s.exifData with
    | none => .error .keyNotFound
    | some i => .ok (s.exifData.getD i ⟨key, ""⟩)

/-- `Image::setExifTagValue`: gated; `_exifData[key] = value`. -/
def Image.setExifTagValue (s : Image) (key value : String) : Option Err × Image :=
  if !s.dataRead then (some .metadataNotRead, s)
  else (none, { s with exifData := exifSet s.exifData key value })

/-- `Image::deleteExifTag`: gated; `keyNotFound` when absent, otherwise the
single entry is erased. -/
def Image.deleteExifTag (s : Image) (key : String) : Option Err × Image :=
  if !s.dataRead then (some .metadataNotRead, s)
  else
    match findIdxFrom (fun d => decide (d.key = key)) s.exifData with
    | none => (some .keyNotFound, s)
    | some i => (none, { s with exifData := s.exifData.eraseIdx i })

/-- The accumulation loop of `Image::iptcKeys`: a key is appended if and only
if it is not already present in the output list. -/
def iptcKeysAux : List Iptcdatum → List IptcKey → List IptcKey
  | [], acc => acc
  | d :: rest, acc =>
    if d.key ∈ acc then iptcKeysAux rest acc
    else iptcKeysAux rest (acc ++ [d.key])

/-- `Image::iptcKeys`: gated; the deduplicated key list in first-occurrence
order. -/
def Image.iptcKeys (s : Image) : Except Err (List IptcKey) :=
  if !s.dataRead then .error .metadataNotRead
  else .ok (iptcKeysAux s.iptcData [])

/-- `Image::getIptcTag`: gated; `keyNotFound` when absent; otherwise collects
every repetition of the key and builds an `IptcTag`, whose constructor throws
`nonRepeatable` when a non-repeatable key holds more than one datum.
`reg` is the registry's `IptcDataSets::dataSetRepeatable` lookup. -/
def Image.getIptcTag (reg : IptcKey → Bool) (s : Image) (key : IptcKey) : Except Err IptcTag :=
  if !s.dataRead then .error .metadataNotRead
  else
    match findKeyIdx s.iptcData key with
    | none => .error .keyNotFound
    | some _ =>
      let data := s.iptcData.filter (fun d => decide (d.key = key))
      if !reg key && data.length > 1 then .error .nonRepeatable
      else .ok ⟨key, reg key, data.map (fun d => d.value)⟩

/-- `Image::setIptcTagValues` (part_005 lines 323-362): gated; runs the
value-assignment loop from the first repetition of the key, then erases any
leftover repetitions.  When the loop throws, the store keeps the mutations
made before the throw. -/
def Image.setIptcTagValues (reg : IptcKey → Bool) (s : Image) (key : IptcKey)
    (values : List String) : Option Err × Image :=
  if !s.dataRead then (some .metadataNotRead, s)
  else
    match setIptcValuesLoop reg key values s.iptcData (findKeyIdx s.iptcData key) with
    | (some e, store, _) => (some e, { s with iptcData := store })
    | (none, store, it) => (none, { s with iptcData := eraseRemaining key store.length store it })

/-- `Image::deleteIptcTag` (part_005 lines 364-382): gated; `keyNotFound`
when no repetition exists, otherwise the erase loop runs from the first
repetition. -/
def Image.deleteIptcTag (s : Image) (key : IptcKey) : Option Err × Image :=
  if !s.dataRead then (some .metadataNotRead, s)
  else
    match findKeyIdx s.iptcData key with
    | none => (some .keyNotFound, s)
    | some i => (none, { s with iptcData := deleteIptcLoop key s.iptcData.length s.iptcData (some i) })

/-- `Image::xmpKeys`: gated; lists the key of every XMP datum in store
order. -/
def Image.xmpKeys (s : Image) : Except Err (List String) :=
  if !s.dataRead then .error .metadataNotRead
  else .ok (s.xmpData.map (fun d => d.key))

/-- `Image::getXmpTag`: gated; `keyNotFound` when absent, otherwise the
datum. -/
def Image.getXmpTag (s : Image) (key : String) : Except Err XmpDatum :=
  if !s.dataRead then .error .metadataNotRead
  else
    match findIdxFrom (fun d => decide (d.key = key)) s.xmpData with
    | none => .error .keyNotFound
    | some i => .ok (s.xmpData.getD i ⟨key, .text ""⟩)

/-- `Image::setXmpTagTextValue`: gated; overwrite-or-create with a text
value. -/
def Image.setXmpTagTextValue (s : Image) (key value : String) : Option Err × Image :=
  if !s.dataRead then (some .metadataNotRead, s)
  else (none, { s with xmpData := xmpSet s.xmpData key (.text value) })

/-- `Image::setXmpTagArrayValue`: gated; the value is reset and each string
appended, leaving the datum holding the array of the given items. -/
def Image.setXmpTagArrayValue (s : Image) (key : String) (values : List String) :
    Option Err × Image :=
  if !s.dataRead then (some .metadataNotRead, s)
  else (none, { s with xmpData := xmpSet s.xmpData key (.array values) })

/-- `Image::setXmpTagLangAltValue`: gated; the value is reset and each
(lang, text) pair appended, leaving a language-alternative value. -/
def Image.setXmpTagLangAltValue (s : Image) (key : String) (values : List (String × String)) :
    Option Err × Image :=
  if !s.dataRead then (some .metadataNotRead, s)
  else (none, { s with xmpData := xmpSet s.xmpData key (.langAlt values) })

/-- `Image::deleteXmpTag`: gated; erases the entry, `keyNotFound` when
absent. -/
def Image.deleteXmpTag (s : Image) (key : String) : Option Err × Image :=
  if !s.dataRead then (some .metadataNotRead, s)
  else
    match findIdxFrom (fun d => decide (d.key = key)) s.xmpData with
    | none => (some .keyNotFound, s)
    | some i => (none, { s with xmpData := s.xmpData.eraseIdx i })

/-- `Image::previews`: gated; one `Preview` per preview image of the
container. -/
def Image.previews (s : Image) : Except Err (List Preview) :=
  if !s.dataRead then .error .metadataNotRead
  else .ok (s.image.previewImages.map Preview.ofImage)

/-- `Image::copyMetadata` (part_005 lines 484-495): both sessions must have
read their metadata; the selected stores of `self` are value-assigned into
the target's stores.  `self` is const and is not modified; nothing touches
either session's underlying image or stream, so nothing is written to disk.
The function returns the updated target. -/
def Image.copyMetadata (a b : Image) (exif iptc xmp : Bool) : Option Err × Image :=
  if !a.dataRead then (some .metadataNotRead, b)
  else if !b.dataRead then (some .metadataNotRead, b)
  else
    (none, { b with
      exifData := if exif then a.exifData else b.exifData
      iptcData := if iptc then a.iptcData else b.iptcData
      xmpData := if xmp then a.xmpData else b.xmpData })

/-- The byte-filling loop of `Image::getDataBuffer`: `n` single-byte reads,
each appending the byte read (or leaving the space filler, byte 32, when the
read returns nothing). -/
def fillBuffer : Nat → Stream → List Nat → List Nat × Stream
  | 0, st, acc => (acc, st)
  | n + 1, st, acc =>
    let r := st.read1
    fillBuffer n r.2 (acc ++ [r.1.getD 32])

/-- `Image::getDataBuffer` (part_005 lines 497-549): NOT gated on
`_dataRead`.  If the stream is open, its position is remembered, the stream
is rewound, all bytes are read, and the position is restored; if it is
closed, it is opened, read, and closed again. -/
def Image.getDataBuffer (s : Image) : Except Err (List Nat × Image) :=
  let io := s.image.basicIo
  let size := io.data.length
  match io.status with
  | .openAt p =>
    let r := fillBuffer size (io.seekTo 0) []
    .ok (r.1, { s with image := { s.image with basicIo := r.2.seekTo p } })
  | .closed =>
    let r := fillBuffer size io.openStream []
    .ok (r.1, { s with image := { s.image with basicIo := r.2.closeStream } })

/-- First-occurrence deduplication, stated the way the spec words it: keep
each key where it first appears and drop its later repetitions.  This is the
specification-side definition that `Image.iptcKeys` is proved to refine. -/
def dedupKeepFirst : List IptcKey → List IptcKey
  | [] => []
  | a :: l => a :: dedupKeepFirst (l.filter (fun b => decide (b ≠ a)))
termination_by l => l.length
decreasing_by
  simp_wf
  exact Nat.lt_succ_of_le (List.length_filter_le _ _)

/-! Concrete instances used by witnesses and counterexamples.  Registry
facts: Iptc.Application2.Headline (record 2, dataset 105) is non-repeatable;
Iptc.Application2.Keywords (record 2, dataset 25) is repeatable. -/

/-- Iptc.Application2.Headline, a non-repeatable dataset. -/
def kHeadline : IptcKey := ⟨2, 105⟩

/-- Iptc.Application2.Keywords, a repeatable dataset. -/
def kKeywords : IptcKey := ⟨2, 25⟩

/-- A small fragment of the IPTC registry's repeatability table. -/
def sampleReg : IptcKey → Bool := fun k => decide (k = kKeywords)

/-- A small underlying image: a JPEG-like byte prefix, closed stream. -/
def img0 : Exiv2Image :=
  { pixelWidth := 640, pixelHeight := 480, mimeType := "image/jpeg",
    basicIo := ⟨[255, 216, 255, 224], .closed⟩,
    imageExif := [], imageIptc := [], imageXmp := [], previewImages := [] }

/-- A session that was opened but has not read its metadata. -/
def sUnread : Image :=
  { dataRead := false, exifData := [], iptcData := [], xmpData := [], image := img0 }

/-- A read session holding one repetition of the non-repeatable Headline. -/
def sHeadline : Image :=
  { dataRead := true, exifData := [], iptcData := [⟨kHeadline, "old"⟩], xmpData := [],
    image := img0 }

/-- A read session holding two adjacent repetitions of Keywords. -/
def sAdjacent : Image :=
  { dataRead := true, exifData := [], iptcData := [⟨kKeywords, "a"⟩, ⟨kKeywords, "b"⟩],
    xmpData := [], image := img0 }

/-- A read session with a successfully loaded EXIF store. -/
def sLoaded : Image :=
  { dataRead := true, exifData := [⟨"Exif.Image.Make", "Acme"⟩], iptcData := [],
    xmpData := [], image := img0 }

/-- A read session with repeated and interleaved IPTC keys. -/
def sMixed : Image :=
  { dataRead := true, exifData := [⟨"Exif.Image.Make", "Acme"⟩],
    iptcData := [⟨kKeywords, "a"⟩, ⟨kHeadline, "h"⟩, ⟨kKeywords, "b"⟩],
    xmpData := [⟨"Xmp.dc.title", .text "t"⟩], image := img0 }

/-- A second read session with different store contents, used as a copy
target. -/
def sTarget : Image :=
  { dataRead := true, exifData := [⟨"Exif.Image.Model", "Z9"⟩],
    iptcData := [⟨kHeadline, "head"⟩], xmpData := [], image := img0 }

/-! Theorems. -/

/-- C1: with the session's metadata not yet read (`_dataRead = false`), every
tag accessor and mutator on the namespace stores, the geometry and MIME
accessors, `previews` and `writeMetadata` fail with `metadataNotRead`, and
the mutators return the session unchanged. -/
theorem c1_metadata_read_gate (reg : IptcKey → Bool) (s : Image)
    (ek ev xk xv : String) (ik : IptcKey) (ivs xvs : List String)
    (xla : List (String × String)) (o : WriteOutcome)
    (h : s.dataRead = false) :
    Image.exifKeys s = .error .metadataNotRead ∧
    Image.getExifTag s ek = .error .metadataNotRead ∧
    Image.setExifTagValue s ek ev = (some .metadataNotRead, s) ∧
    Image.deleteExifTag s ek = (some .metadataNotRead, s) ∧
    Image.iptcKeys s = .error .metadataNotRead ∧
    Image.getIptcTag reg s ik = .error .metadataNotRead ∧
    Image.setIptcTagValues reg s ik ivs = (some .metadataNotRead, s) ∧
    Image.deleteIptcTag s ik = (some .metadataNotRead, s) ∧
    Image.xmpKeys s = .error .metadataNotRead ∧
    Image.getXmpTag s xk = .error .metadataNotRead ∧
    Image.setXmpTagTextValue s xk xv = (some .metadataNotRead, s) ∧
    Image.setXmpTagArrayValue s xk xvs = (some .metadataNotRead, s) ∧
    Image.setXmpTagLangAltValue s xk xla = (some .metadataNotRead, s) ∧
    Image.deleteXmpTag s xk = (some .metadataNotRead, s) ∧
    Image.previews s = .error .metadataNotRead ∧
    Image.pixelWidth s = .error .metadataNotRead ∧
    Image.pixelHeight s = .error .metadataNotRead ∧
    Image.mimeType s = .error .metadataNotRead ∧
    Image.writeMetadata s o = (some .metadataNotRead, s) := by
  simp [Image.exifKeys, Image.getExifTag, Image.setExifTagValue, Image.deleteExifTag,
        Image.iptcKeys, Image.getIptcTag, Image.setIptcTagValues, Image.deleteIptcTag,
        Image.xmpKeys, Image.getXmpTag, Image.setXmpTagTextValue, Image.setXmpTagArrayValue,
        Image.setXmpTagLangAltValue, Image.deleteXmpTag, Image.previews, Image.pixelWidth,
        Image.pixelHeight, Image.mimeType, Image.writeMetadata, h]

/-- C1 witness: the gate theorem instantiated on a concrete unread session
and concrete keys/values. -/
theorem c1_metadata_read_gate_witness :
    sUnread.dataRead = false ∧
    (Image.exifKeys sUnread = .error .metadataNotRead ∧
     Image.getExifTag sUnread "Exif.Image.Make" = .error .metadataNotRead ∧
     Image.setExifTagValue sUnread "Exif.Image.Make" "Acme" = (some .metadataNotRead, sUnread) ∧
     Image.deleteExifTag sUnread "Exif.Image.Make" = (some .metadataNotRead, sUnread) ∧
     Image.iptcKeys sUnread = .error .metadataNotRead ∧
     Image.getIptcTag sampleReg sUnread kHeadline = .error .metadataNotRead ∧
     Image.setIptcTagValues sampleReg sUnread kHeadline ["a"] = (some .metadataNotRead, sUnread) ∧
     Image.deleteIptcTag sUnread kHeadline = (some .metadataNotRead, sUnread) ∧
     Image.xmpKeys sUnread = .error .metadataNotRead ∧
     Image.getXmpTag sUnread "Xmp.dc.title" = .error .metadataNotRead ∧
     Image.setXmpTagTextValue sUnread "Xmp.dc.title" "t" = (some .metadataNotRead, sUnread) ∧
     Image.setXmpTagArrayValue sUnread "Xmp.dc.subject" ["x"] = (some .metadataNotRead, sUnread) ∧
     Image.setXmpTagLangAltValue sUnread "Xmp.dc.title" [("en", "t")] = (some .metadataNotRead, sUnread) ∧
     Image.deleteXmpTag sUnread "Xmp.dc.title" = (some .metadataNotRead, sUnread) ∧
     Image.previews sUnread = .error .metadataNotRead ∧
     Image.pixelWidth sUnread = .error .metadataNotRead ∧
     Image.pixelHeight sUnread = .error .metadataNotRead ∧
     Image.mimeType sUnread = .error .metadataNotRead ∧
     Image.writeMetadata sUnread (.failure 21) = (some .metadataNotRead, sUnread)) :=
  ⟨rfl, c1_metadata_read_gate sampleReg sUnread "Exif.Image.Make" "Acme" "Xmp.dc.title" "t"
      kHeadline ["a"] ["x"] [("en", "t")] (.failure 21) rfl⟩

/-- C3 (code bug): on a store holding two adjacent repetitions of the same
key, `deleteIptcTag` returns successfully yet the second repetition is still
in the store: the erase loop advances the iterator past the element that
shifted into the erased slot. -/
theorem c3_deleteIptcTag_adjacent_skip :
    (Image.deleteIptcTag sAdjacent kKeywords).1 = none ∧
    (Image.deleteIptcTag sAdjacent kKeywords).2.iptcData = [⟨kKeywords, "b"⟩] ∧
    containsKey (Image.deleteIptcTag sAdjacent kKeywords).2.iptcData kKeywords = true := by
  decide

/-- C4 (amended): a failing `readMetadata` call propagates the underlying
error (any nonzero code) and leaves the session exactly as it was: the
stores and the `_dataRead` flag are untouched, so a never-read session still
has empty stores and a previously read session keeps its loaded stores and
stays readable. -/
theorem c4_readMetadata_failure_preserves_session (s : Image) (c : Nat) :
    (Image.readMetadata s (.failure c)).2 = s ∧
    (c ≠ 0 → (Image.readMetadata s (.failure c)).1 = some (.exiv2 c)) := by
  refine ⟨rfl, fun hc => ?_⟩
  simp [Image.readMetadata, hc]

/-- C4 witness: the amended theorem applied to a previously read session and
error code 14 (Failed to read image data). -/
theorem c4_readMetadata_failure_preserves_session_witness :
    (Image.readMetadata sLoaded (.failure 14)).1 = some (.exiv2 14) ∧
    (Image.readMetadata sLoaded (.failure 14)).2 = sLoaded :=
  ⟨(c4_readMetadata_failure_preserves_session sLoaded 14).2 (by decide),
   (c4_readMetadata_failure_preserves_session sLoaded 14).1⟩

/-- C4 counterexample: on a session whose previous read succeeded, a failing
re-read leaves the session in state MetadataRead with its non-empty EXIF
store — the stores are not emptied and the state does not revert to
Opened. -/
theorem c4_readMetadata_failure_counterexample :
    (Image.readMetadata sLoaded (.failure 14)).1 = some (.exiv2 14) ∧
    (Image.readMetadata sLoaded (.failure 14)).2.dataRead = true ∧
    (Image.readMetadata sLoaded (.failure 14)).2.exifData ≠ [] := by
  decide

/-- The buffer copy loop writes the source byte at each position below the
source length. -/
theorem set_append_length (l₁ l₂ : List Nat) (a : Nat) :
    (l₁ ++ l₂).set l₁.length a = l₁ ++ l₂.set 0 a := by
  induction l₁ with
  | nil => simp
  | cons x xs ih => simp [ih]

/-- Setting at any index known to equal the left part's length lands on the
head of the right part. -/
theorem set_append_eq (l₁ l₂ : List Nat) (a : Nat) (n : Nat) (h : n = l₁.length) :
    (l₁ ++ l₂).set n a = l₁ ++ l₂.set 0 a := by
  subst h; exact set_append_length l₁ l₂ a

/-- After the first `n` iterations of the `Preview` copy loop the buffer is
the first `n` source bytes followed by untouched filler. -/
theorem copyByByte_aux (src : List Nat) (n : Nat) (h : n ≤ src.length) :
    (List.range n).foldl (fun buf i => buf.set i (src.getD i 32)) (List.replicate src.length 32)
      = src.take n ++ List.replicate (src.length - n) 32 := by
  induction n with
  | zero => simp
  | succ m ih =>
    have hm : m ≤ src.length := Nat.le_of_succ_le h
    have hmlt : m < src.length := h
    have hlen : (src.take m).length = m := by
      simp [List.length_take, Nat.min_eq_left hm]
    rw [List.range_succ, List.foldl_append, ih hm]
    simp only [List.foldl_cons, List.foldl_nil]
    rw [set_append_eq _ _ _ m hlen.symm]
    have hrep : src.length - m = (src.length - (m + 1)) + 1 := by omega
    rw [hrep, List.replicate_succ, List.set_cons_zero]
    have hgetD : src.getD m 32 = src[m] := by
      simp [List.getD, List.getElem?_eq_getElem hmlt]
    have htake : List.take (m + 1) src = List.take m src ++ [src[m]] := by
      rw [List.take_succ, List.getElem?_eq_getElem hmlt]
      rfl
    rw [hgetD, htake, List.append_assoc, List.singleton_append]

/-- The `Preview` copy loop reproduces the source buffer exactly. -/
theorem copyByByte_self (src : List Nat) : copyByByte src src.length = src := by
  unfold copyByByte
  rw [copyByByte_aux src src.length (le_refl _)]
  simp

/-- A search that finds nothing means no element satisfies the predicate. -/
theorem findIdxFrom_eq_none_iff {α : Type} (p : α → Bool) (l : List α) :
    findIdxFrom p l = none ↔ ∀ a ∈ l, p a = false := by
  induction l with
  | nil => simp [findIdxFrom]
  | cons x xs ih =>
    by_cases hx : p x <;> simp [findIdxFrom, hx, ih]

/-- A successful search splits the list at the first matching element. -/
theorem findIdxFrom_eq_some {α : Type} (p : α → Bool) (l : List α) (i : Nat)
    (h : findIdxFrom p l = some i) :
    ∃ pre a post, l = pre ++ a :: post ∧ pre.length = i ∧ p a = true ∧
      ∀ x ∈ pre, p x = false := by
  induction l generalizing i with
  | nil => simp [findIdxFrom] at h
  | cons x xs ih =>
    simp only [findIdxFrom] at h
    by_cases hx : p x
    · rw [if_pos hx] at h
      have hi : (0 : Nat) = i := Option.some.inj h
      exact ⟨[], x, xs, rfl, hi, hx, by simp⟩
    · rw [if_neg hx] at h
      cases hfx : findIdxFrom p xs with
      | none => rw [hfx] at h; simp at h
      | some j =>
        rw [hfx] at h
        simp only [Option.map_some'] at h
        have hj : j + 1 = i := Option.some.inj h
        obtain ⟨pre, a, post, hl, hlen, hpa, hpre⟩ := ih j hfx
        refine ⟨x :: pre, a, post, by rw [hl]; rfl, by simp [hlen, hj], hpa, ?_⟩
        intro y hy
        rcases List.mem_cons.mp hy with h1 | h1
        · rw [h1]
          exact (Bool.not_eq_true _).mp hx
        · exact hpre y h1

/-- `findKey` misses exactly when no datum has the key. -/
theorem findKeyIdx_eq_none_iff (store : List Iptcdatum) (k : IptcKey) :
    findKeyIdx store k = none ↔ ∀ d ∈ store, d.key ≠ k := by
  unfold findKeyIdx
  rw [findIdxFrom_eq_none_iff]
  constructor
  · intro h d hd
    simpa using h d hd
  · intro h d hd
    simp [h d hd]

/-- A successful `findKey` splits the store at the first repetition of the
key. -/
theorem findKeyIdx_eq_some_split (store : List Iptcdatum) (k : IptcKey) (i : Nat)
    (h : findKeyIdx store k = some i) :
    ∃ pre d post, store = pre ++ d :: post ∧ pre.length = i ∧ d.key = k ∧
      ∀ x ∈ pre, x.key ≠ k := by
  obtain ⟨pre, d, post, hl, hlen, hpd, hpre⟩ := findIdxFrom_eq_some _ _ i h
  exact ⟨pre, d, post, hl, hlen, by simpa using hpd,
         fun x hx => by simpa using hpre x hx⟩

/-- Overwriting the value right after a known prefix. -/
theorem setValueAt_append (pre : List Iptcdatum) (d : Iptcdatum) (post : List Iptcdatum)
    (v : String) :
    setValueAt (pre ++ d :: post) pre.length v = pre ++ ⟨d.key, v⟩ :: post := by
  induction pre with
  | nil => rfl
  | cons x xs ih => simp [setValueAt, ih]

/-- Dropping past a known prefix and one element. -/
theorem drop_append_cons_succ (pre : List Iptcdatum) (d : Iptcdatum) (post : List Iptcdatum) :
    (pre ++ d :: post).drop (pre.length + 1) = post := by
  induction pre with
  | nil => simp
  | cons x xs ih => simp [ih]

/-- `find_if` from a position past which no datum has the key returns end. -/
theorem findFrom_none (store : List Iptcdatum) (start : Nat) (k : IptcKey)
    (h : ∀ d ∈ store.drop start, d.key ≠ k) : findFrom store start k = none := by
  have hnone : findIdxFrom (fun d => decide (d.key = k)) (store.drop start) = none :=
    (findIdxFrom_eq_none_iff _ _).mpr (fun d hd => by simp [h d hd])
  unfold findFrom findKeyIdx
  rw [hnone]
  rfl

/-- A store containing a datum with the key contains the key. -/
theorem containsKey_of_mem (store : List Iptcdatum) (d : Iptcdatum) (k : IptcKey)
    (hd : d ∈ store) (hk : d.key = k) : containsKey store k = true := by
  simp only [containsKey, List.any_eq_true]
  exact ⟨d, hd, by simp [hk]⟩

/-- A store with no datum for the key does not contain it. -/
theorem containsKey_eq_false (store : List Iptcdatum) (k : IptcKey)
    (h : ∀ d ∈ store, d.key ≠ k) : containsKey store k = false := by
  simp only [containsKey, List.any_eq_false]
  intro d hd
  simp [h d hd]

/-- When a store satisfying the at-most-one-repetition invariant is split at
a repetition of the key, no later repetition exists. -/
theorem no_match_post (pre : List Iptcdatum) (d : Iptcdatum) (post : List Iptcdatum)
    (k : IptcKey) (hd : d.key = k) (hinv : countKey (pre ++ d :: post) k ≤ 1) :
    ∀ x ∈ post, x.key ≠ k := by
  have hsum : countKey pre k + (countKey post k + 1) ≤ 1 := by
    simpa [countKey, List.countP_append, List.countP_cons, hd] using hinv
  have h0 : countKey post k = 0 := by omega
  intro x hx hxk
  have := List.countP_eq_zero.mp h0 x hx
  simp [hxk] at this

/-- Trace of the `setIptcTagValues` loop with an absent non-repeatable key
and at least two values: the first value is appended, then `IptcData::add`
rejects the second. -/
theorem setIptcValuesLoop_fail_absent (reg : IptcKey → Bool) (k : IptcKey)
    (hreg : reg k = false) (store : List Iptcdatum)
    (habs : containsKey store k = false) (v₁ v₂ : String) (rest : List String) :
    setIptcValuesLoop reg k (v₁ :: v₂ :: rest) store none
      = (some .nonRepeatable, store ++ [⟨k, v₁⟩], none) := by
  have hcont : containsKey (store ++ [⟨k, v₁⟩]) k = true :=
    containsKey_of_mem _ ⟨k, v₁⟩ k (by simp) rfl
  simp [setIptcValuesLoop, hreg, habs, hcont]

/-- Trace of the `setIptcTagValues` loop with a present non-repeatable key
(single repetition) and at least two values: the existing repetition is
overwritten with the first value, then `IptcData::add` rejects the second. -/
theorem setIptcValuesLoop_fail_present (reg : IptcKey → Bool) (k : IptcKey)
    (hreg : reg k = false) (pre : List Iptcdatum) (d : Iptcdatum)
    (post : List Iptcdatum) (hd : d.key = k) (hpost : ∀ x ∈ post, x.key ≠ k)
    (v₁ v₂ : String) (rest : List String) :
    setIptcValuesLoop reg k (v₁ :: v₂ :: rest) (pre ++ d :: post) (some pre.length)
      = (some .nonRepeatable, pre ++ ⟨k, v₁⟩ :: post, none) := by
  have hset : setValueAt (pre ++ d :: post) pre.length v₁ = pre ++ ⟨k, v₁⟩ :: post := by
    rw [setValueAt_append, hd]
  have hfind : findFrom (pre ++ ⟨k, v₁⟩ :: post) (pre.length + 1) k = none := by
    apply findFrom_none
    rw [drop_append_cons_succ]
    exact hpost
  have hcont : containsKey (pre ++ (⟨k, v₁⟩ : Iptcdatum) :: post) k = true :=
    containsKey_of_mem _ ⟨k, v₁⟩ k (by simp) rfl
  simp [setIptcValuesLoop, hset, hfind, hreg, hcont]

/-- Trace of the loop with a present key (single repetition) and exactly one
value: the repetition is overwritten and the loop ends at `end()`. -/
theorem setIptcValuesLoop_single_present (reg : IptcKey → Bool) (k : IptcKey)
    (pre : List Iptcdatum) (d : Iptcdatum) (post : List Iptcdatum) (hd : d.key = k)
    (hpost : ∀ x ∈ post, x.key ≠ k) (v : String) :
    setIptcValuesLoop reg k [v] (pre ++ d :: post) (some pre.length)
      = (none, pre ++ ⟨k, v⟩ :: post, none) := by
  have hset : setValueAt (pre ++ d :: post) pre.length v = pre ++ ⟨k, v⟩ :: post := by
    rw [setValueAt_append, hd]
  have hfind : findFrom (pre ++ ⟨k, v⟩ :: post) (pre.length + 1) k = none := by
    apply findFrom_none
    rw [drop_append_cons_succ]
    exact hpost
  simp [setIptcValuesLoop, hset, hfind]

/-- Trace of the loop with an absent key and one value: the value is
appended. -/
theorem setIptcValuesLoop_single_absent (reg : IptcKey → Bool) (k : IptcKey)
    (store : List Iptcdatum) (habs : containsKey store k = false) (v : String) :
    setIptcValuesLoop reg k [v] store none = (none, store ++ [⟨k, v⟩], none) := by
  simp [setIptcValuesLoop, habs]

/-- Full behaviour of `setIptcTagValues` on a non-repeatable key under the
at-most-one-repetition store invariant, with two or more values: the call
fails with `nonRepeatable` after the first value has already been applied
(overwriting the existing repetition, or appended when the key was
absent). -/
theorem setIptcTagValues_nonrepeatable_spec (reg : IptcKey → Bool) (s : Image)
    (k : IptcKey) (v₁ v₂ : String) (rest : List String)
    (hread : s.dataRead = true) (hreg : reg k = false)
    (hinv : countKey s.iptcData k ≤ 1) :
    Image.setIptcTagValues reg s k (v₁ :: v₂ :: rest)
      = (some .nonRepeatable,
         { s with iptcData := match findKeyIdx s.iptcData k with
                              | some i => setValueAt s.iptcData i v₁
                              | none => s.iptcData ++ [⟨k, v₁⟩] }) := by
  cases hfk : findKeyIdx s.iptcData k with
  | none =>
    have habs : containsKey s.iptcData k = false :=
      containsKey_eq_false _ _ ((findKeyIdx_eq_none_iff _ _).mp hfk)
    simp only [Image.setIptcTagValues, hread, Bool.not_true, Bool.false_eq_true, if_false,
               hfk, setIptcValuesLoop_fail_absent reg k hreg _ habs v₁ v₂ rest]
  | some i =>
    obtain ⟨pre, d, post, hl, hlen, hd, _⟩ := findKeyIdx_eq_some_split _ _ i hfk
    have hpost : ∀ x ∈ post, x.key ≠ k := by
      apply no_match_post pre d post k hd
      rw [← hl]
      exact hinv
    have hloop := setIptcValuesLoop_fail_present reg k hreg pre d post hd hpost v₁ v₂ rest
    simp only [Image.setIptcTagValues, hread, Bool.not_true, Bool.false_eq_true, if_false, hfk]
    rw [hl, ← hlen, hloop]
    simp [setValueAt_append, hd]

/-- `setIptcTagValues` with exactly one value succeeds under the
at-most-one-repetition invariant (any key, any repeatability). -/
theorem setIptcTagValues_single_ok (reg : IptcKey → Bool) (s : Image) (k : IptcKey)
    (v : String) (hread : s.dataRead = true) (hinv : countKey s.iptcData k ≤ 1) :
    (Image.setIptcTagValues reg s k [v]).1 = none := by
  cases hfk : findKeyIdx s.iptcData k with
  | none =>
    have habs : containsKey s.iptcData k = false :=
      containsKey_eq_false _ _ ((findKeyIdx_eq_none_iff _ _).mp hfk)
    simp [Image.setIptcTagValues, hread, hfk,
          setIptcValuesLoop_single_absent reg k _ habs v]
  | some i =>
    obtain ⟨pre, d, post, hl, hlen, hd, _⟩ := findKeyIdx_eq_some_split _ _ i hfk
    have hpost : ∀ x ∈ post, x.key ≠ k := by
      apply no_match_post pre d post k hd
      rw [← hl]
      exact hinv
    have hloop := setIptcValuesLoop_single_present reg k pre d post hd hpost v
    simp only [Image.setIptcTagValues, hread, Bool.not_true, Bool.false_eq_true, if_false, hfk]
    rw [hl, ← hlen, hloop]

/-- Every element of the first-occurrence deduplication comes from the input
list. -/
theorem mem_of_mem_dedupKeepFirst (l : List IptcKey) (x : IptcKey)
    (h : x ∈ dedupKeepFirst l) : x ∈ l := by
  induction l using dedupKeepFirst.induct with
  | case1 => simp [dedupKeepFirst] at h
  | case2 a t ih =>
    rw [dedupKeepFirst] at h
    rcases List.mem_cons.mp h with h1 | h1
    · simp [h1]
    · exact List.mem_cons_of_mem a (List.mem_of_mem_filter (ih h1))

/-- The first-occurrence deduplication contains no duplicates. -/
theorem dedupKeepFirst_nodup (l : List IptcKey) : (dedupKeepFirst l).Nodup := by
  induction l using dedupKeepFirst.induct with
  | case1 => simp [dedupKeepFirst]
  | case2 a t ih =>
    rw [dedupKeepFirst, List.nodup_cons]
    refine ⟨fun hmem => ?_, ih⟩
    have := List.of_mem_filter (mem_of_mem_dedupKeepFirst _ _ hmem)
    simp at this

/-- Unfolding of the `iptcKeys` accumulation loop: relative to an already
accumulated prefix, the loop appends the first-occurrence deduplication of
the not-yet-seen keys. -/
theorem iptcKeysAux_eq (ds : List Iptcdatum) (acc : List IptcKey) :
    iptcKeysAux ds acc
      = acc ++ dedupKeepFirst ((ds.map (fun d => d.key)).filter (fun k => decide (k ∉ acc))) := by
  induction ds generalizing acc with
  | nil => simp [iptcKeysAux, dedupKeepFirst]
  | cons d rest ih =>
    by_cases hmem : d.key ∈ acc
    · simp [iptcKeysAux, hmem, ih]
    · have hfil : (rest.map (fun d => d.key)).filter (fun k => !decide (k ∈ acc ++ [d.key]))
          = ((rest.map (fun d => d.key)).filter (fun k => !decide (k ∈ acc))).filter
              (fun b => decide (b ≠ d.key)) := by
        rw [List.filter_filter]
        apply List.filter_congr
        intro x _
        by_cases h1 : x = d.key <;> by_cases h2 : x ∈ acc <;> simp [h1, h2]
      simp only [iptcKeysAux, hmem, if_false, ih, List.map_cons, List.filter_cons,
                 hmem, decide_not]
      simp only [hmem, decide_False, Bool.not_false, if_true]
      rw [dedupKeepFirst, hfil]
      simp

/-- C5: with metadata read, `iptcKeys` returns the store's keys deduplicated
in first-occurrence order, and that list has no duplicates even when the
store holds repeated datums for a key. -/
theorem c5_iptcKeys_dedup_first (s : Image) (h : s.dataRead = true) :
    Image.iptcKeys s = .ok (dedupKeepFirst (s.iptcData.map (fun d => d.key))) ∧
    (dedupKeepFirst (s.iptcData.map (fun d => d.key))).Nodup := by
  refine ⟨?_, dedupKeepFirst_nodup _⟩
  simp only [Image.iptcKeys, h, Bool.not_true, Bool.false_eq_true, if_false, iptcKeysAux_eq]
  simp

/-- C5 witness: the deduplication theorem on a store with interleaved
repetitions. -/
theorem c5_iptcKeys_dedup_first_witness :
    sMixed.dataRead = true ∧
    (Image.iptcKeys sMixed = .ok (dedupKeepFirst (sMixed.iptcData.map (fun d => d.key))) ∧
     (dedupKeepFirst (sMixed.iptcData.map (fun d => d.key))).Nodup) :=
  ⟨rfl, c5_iptcKeys_dedup_first sMixed rfl⟩

/-- Reading `n` bytes one at a time from an open stream yields the `n` bytes
from the current position and advances the position by `n`. -/
theorem fillBuffer_from (data : List Nat) (p n : Nat) (acc : List Nat)
    (h : p + n ≤ data.length) :
    fillBuffer n ⟨data, .openAt p⟩ acc
      = (acc ++ (data.drop p).take n, ⟨data, .openAt (p + n)⟩) := by
  induction n generalizing p acc with
  | zero => simp [fillBuffer]
  | succ m ih =>
    have hp : p < data.length := by omega
    have hg : data.get? p = some data[p] := by
      simp [List.getElem?_eq_getElem hp]
    have hdrop : data.drop p = data[p] :: data.drop (p + 1) := by
      rw [List.drop_eq_getElem_cons hp]
    have hpos : p + 1 + m = p + (m + 1) := by omega
    have hlist : (data.drop p).take (m + 1) = data[p] :: (data.drop (p + 1)).take m := by
      rw [hdrop, List.take_succ_cons]
    simp only [fillBuffer, Stream.read1, hg]
    rw [ih (p + 1) _ (by omega), hlist, hpos]
    simp [List.append_assoc]

/-- C9: `getDataBuffer` is not gated on `_dataRead`: for every session state
it succeeds (it can never fail with `metadataNotRead`), returns the full
container bytes, and leaves the underlying stream exactly as it found it —
an initially closed stream is closed again, an initially open stream is
restored to its prior position. -/
theorem c9_getDataBuffer_ungated (s : Image) :
    Image.getDataBuffer s = .ok (s.image.basicIo.data, s) := by
  obtain ⟨dr, ed, idt, xd, img⟩ := s
  obtain ⟨pw, ph, mt, io, ie, ii, ix, pv⟩ := img
  obtain ⟨data, st⟩ := io
  cases st with
  | closed =>
    simp [Image.getDataBuffer, Stream.openStream, Stream.closeStream,
          fillBuffer_from data 0 data.length [] (by omega)]
  | openAt p =>
    simp [Image.getDataBuffer, Stream.seekTo,
          fillBuffer_from data 0 data.length [] (by omega)]

/-- C10: the Preview object's data buffer is a byte-exact copy of the source
preview buffer — its length equals the reported size and every byte,
including embedded NUL (0) bytes, equals the corresponding source byte. -/
theorem c10_preview_data_byte_exact (p : PreviewImage) :
    (Preview.ofImage p).data = p.pData ∧
    (Preview.ofImage p).data.length = (Preview.ofImage p).size := by
  refine ⟨?_, ?_⟩ <;> simp [Preview.ofImage, PreviewImage.size, copyByByte_self]

/-- C2 counterexample: a failing `setIptcTagValues` call that leaves the
IPTC store changed.  The store holds one repetition of the non-repeatable
Headline; assigning two values fails with `nonRepeatable`, but by then the
existing repetition has already been overwritten with the first value. -/
theorem c2_setIptcTagValues_not_atomic_counterexample :
    (Image.setIptcTagValues sampleReg sHeadline kHeadline ["a", "b"]).1
      = some .nonRepeatable ∧
    (Image.setIptcTagValues sampleReg sHeadline kHeadline ["a", "b"]).2.iptcData
      ≠ sHeadline.iptcData ∧
    (Image.setIptcTagValues sampleReg sHeadline kHeadline ["a", "b"]).2.iptcData
      = [⟨kHeadline, "a"⟩] := by
  decide

/-- C2 (amended): `setIptcTagValues` is not atomic.  When it fails with
`nonRepeatable` — non-repeatable key, two or more values, store satisfying
the at-most-one-repetition invariant — the store has already been mutated:
the existing repetition was overwritten with the first value, or the first
value was appended when the key was absent. -/
theorem c2_setIptcTagValues_torn_write (reg : IptcKey → Bool) (s : Image)
    (k : IptcKey) (v₁ v₂ : String) (rest : List String)
    (hread : s.dataRead = true) (hreg : reg k = false)
    (hinv : countKey s.iptcData k ≤ 1) :
    (Image.setIptcTagValues reg s k (v₁ :: v₂ :: rest)).1 = some .nonRepeatable ∧
    (Image.setIptcTagValues reg s k (v₁ :: v₂ :: rest)).2.iptcData
      = (match findKeyIdx s.iptcData k with
         | some i => setValueAt s.iptcData i v₁
         | none => s.iptcData ++ [⟨k, v₁⟩]) := by
  rw [setIptcTagValues_nonrepeatable_spec reg s k v₁ v₂ rest hread hreg hinv]
  exact ⟨rfl, rfl⟩

/-- C2 witness: the torn-write characterization on a concrete store holding
one repetition of the non-repeatable Headline. -/
theorem c2_setIptcTagValues_torn_write_witness :
    sHeadline.dataRead = true ∧ sampleReg kHeadline = false ∧
    countKey sHeadline.iptcData kHeadline ≤ 1 ∧
    ((Image.setIptcTagValues sampleReg sHeadline kHeadline ("a" :: "b" :: [])).1
        = some .nonRepeatable ∧
     (Image.setIptcTagValues sampleReg sHeadline kHeadline ("a" :: "b" :: [])).2.iptcData
        = (match findKeyIdx sHeadline.iptcData kHeadline with
           | some i => setValueAt sHeadline.iptcData i "a"
           | none => sHeadline.iptcData ++ [⟨kHeadline, "a"⟩])) :=
  ⟨rfl, by decide, by decide,
   c2_setIptcTagValues_torn_write sampleReg sHeadline kHeadline "a" "b" []
     rfl (by decide) (by decide)⟩

/-- C6: for a key whose registry entry marks it non-repeatable (and a store
satisfying the at-most-one-repetition invariant), assigning two or more
values via `setIptcTagValues` or `IptcTag.setRawValues` fails with
`nonRepeatable`, while assigning exactly one value succeeds on both paths. -/
theorem c6_nonrepeatable_set (reg : IptcKey → Bool) (s : Image) (k : IptcKey)
    (v v₁ v₂ : String) (rest : List String) (t : IptcTag)
    (hread : s.dataRead = true) (hreg : reg k = false)
    (hinv : countKey s.iptcData k ≤ 1) (ht : t.repeatable = false) :
    (Image.setIptcTagValues reg s k (v₁ :: v₂ :: rest)).1 = some .nonRepeatable ∧
    (Image.setIptcTagValues reg s k [v]).1 = none ∧
    (IptcTag.setRawValues t (v₁ :: v₂ :: rest)).1 = some .nonRepeatable ∧
    (IptcTag.setRawValues t [v]).1 = none := by
  refine ⟨?_, setIptcTagValues_single_ok reg s k v hread hinv, ?_, ?_⟩
  · rw [setIptcTagValues_nonrepeatable_spec reg s k v₁ v₂ rest hread hreg hinv]
  · simp [IptcTag.setRawValues, ht]
  · simp [IptcTag.setRawValues]

/-- C6 witness: both assignment paths on the non-repeatable Headline. -/
theorem c6_nonrepeatable_set_witness :
    sHeadline.dataRead = true ∧ sampleReg kHeadline = false ∧
    countKey sHeadline.iptcData kHeadline ≤ 1 ∧
    (IptcTag.mk kHeadline false ["old"]).repeatable = false ∧
    ((Image.setIptcTagValues sampleReg sHeadline kHeadline ("x" :: "y" :: [])).1
        = some .nonRepeatable ∧
     (Image.setIptcTagValues sampleReg sHeadline kHeadline ["z"]).1 = none ∧
     (IptcTag.setRawValues (IptcTag.mk kHeadline false ["old"]) ("x" :: "y" :: [])).1
        = some .nonRepeatable ∧
     (IptcTag.setRawValues (IptcTag.mk kHeadline false ["old"]) ["z"]).1 = none) :=
  ⟨rfl, by decide, by decide, rfl,
   c6_nonrepeatable_set sampleReg sHeadline kHeadline "z" "x" "y" []
     (IptcTag.mk kHeadline false ["old"]) rfl (by decide) (by decide) rfl⟩

/-- C7: with metadata read, deleting a key that has no datum in the
corresponding store fails with `keyNotFound` — a distinct error, not a
silent no-op — and returns the session unchanged, for all three delete
operations. -/
theorem c7_delete_absent_key (s : Image) (ke : String) (ki : IptcKey) (kx : String)
    (hread : s.dataRead = true)
    (he : ∀ d ∈ s.exifData, d.key ≠ ke)
    (hi : ∀ d ∈ s.iptcData, d.key ≠ ki)
    (hx : ∀ d ∈ s.xmpData, d.key ≠ kx) :
    Image.deleteExifTag s ke = (some .keyNotFound, s) ∧
    Image.deleteIptcTag s ki = (some .keyNotFound, s) ∧
    Image.deleteXmpTag s kx = (some .keyNotFound, s) := by
  have h1 : findIdxFrom (fun d => decide (d.key = ke)) s.exifData = none :=
    (findIdxFrom_eq_none_iff _ _).mpr (fun d hd => by simp [he d hd])
  have h2 : findKeyIdx s.iptcData ki = none := (findKeyIdx_eq_none_iff _ _).mpr hi
  have h3 : findIdxFrom (fun d => decide (d.key = kx)) s.xmpData = none :=
    (findIdxFrom_eq_none_iff _ _).mpr (fun d hd => by simp [hx d hd])
  refine ⟨?_, ?_, ?_⟩ <;>
    simp [Image.deleteExifTag, Image.deleteIptcTag, Image.deleteXmpTag, hread, h1, h2, h3]

/-- C7 witness: deleting keys absent from a session with non-empty stores. -/
theorem c7_delete_absent_key_witness :
    sMixed.dataRead = true ∧
    (∀ d ∈ sMixed.exifData, d.key ≠ "Exif.Image.Model") ∧
    (∀ d ∈ sMixed.iptcData, d.key ≠ IptcKey.mk 2 80) ∧
    (∀ d ∈ sMixed.xmpData, d.key ≠ "Xmp.dc.creator") ∧
    (Image.deleteExifTag sMixed "Exif.Image.Model" = (some .keyNotFound, sMixed) ∧
     Image.deleteIptcTag sMixed (IptcKey.mk 2 80) = (some .keyNotFound, sMixed) ∧
     Image.deleteXmpTag sMixed "Xmp.dc.creator" = (some .keyNotFound, sMixed)) :=
  ⟨rfl, by decide, by decide, by decide,
   c7_delete_absent_key sMixed "Exif.Image.Model" (IptcKey.mk 2 80) "Xmp.dc.creator"
     rfl (by decide) (by decide) (by decide)⟩

/-- C8: with both sessions read, `copyMetadata` with exif only sets the
target's EXIF store to the source's EXIF store by value and leaves the
target's IPTC store, XMP store, read flag and underlying image (including
its stream, i.e. the on-disk bytes) unchanged; the source is const and is
never touched.  When either session has not read its metadata the call
fails with `metadataNotRead` and changes nothing. -/
theorem c8_copyMetadata_exif_only (a b : Image)
    (h₁ : a.dataRead = true) (h₂ : b.dataRead = true) :
    ((Image.copyMetadata a b true false false).1 = none ∧
     (Image.copyMetadata a b true false false).2.exifData = a.exifData ∧
     (Image.copyMetadata a b true false false).2.iptcData = b.iptcData ∧
     (Image.copyMetadata a b true false false).2.xmpData = b.xmpData ∧
     (Image.copyMetadata a b true false false).2.image = b.image ∧
     (Image.copyMetadata a b true false false).2.dataRead = b.dataRead) ∧
    (∀ a' b' : Image, ∀ e i x : Bool, a'.dataRead = false ∨ b'.dataRead = false →
       Image.copyMetadata a' b' e i x = (some .metadataNotRead, b')) := by
  constructor
  · refine ⟨?_, ?_, ?_, ?_, ?_, ?_⟩ <;> simp [Image.copyMetadata, h₁, h₂]
  · intro a' b' e i x h
    rcases h with h | h
    · simp [Image.copyMetadata, h]
    · by_cases ha : a'.dataRead <;> simp [Image.copyMetadata, h, ha]

/-- C8 witness: a concrete exif-only copy between two read sessions with
different stores. -/
theorem c8_copyMetadata_exif_only_witness :
    sLoaded.dataRead = true ∧ sTarget.dataRead = true ∧
    (((Image.copyMetadata sLoaded sTarget true false false).1 = none ∧
      (Image.copyMetadata sLoaded sTarget true false false).2.exifData = sLoaded.exifData ∧
      (Image.copyMetadata sLoaded sTarget true false false).2.iptcData = sTarget.iptcData ∧
      (Image.copyMetadata sLoaded sTarget true false false).2.xmpData = sTarget.xmpData ∧
      (Image.copyMetadata sLoaded sTarget true false false).2.image = sTarget.image ∧
      (Image.copyMetadata sLoaded sTarget true false false).2.dataRead = sTarget.dataRead) ∧
     (∀ a' b' : Image, ∀ e i x : Bool, a'.dataRead = false ∨ b'.dataRead = false →
        Image.copyMetadata a' b' e i x = (some .metadataNotRead, b'))) :=
  ⟨rfl, rfl, c8_copyMetadata_exif_only sLoaded sTarget rfl rfl⟩

end Pyexiv2
